import Mathlib

/-!
Verification of the sonner-solidjs toast engine (src/src/index.tsx and the
notification registry described in the spec).  The definitions below are a
shallow embedding of the TypeScript source: JS numbers used by the gesture
code are modelled as rationals, millisecond timestamps as integers, and the
`findIndex` / spread-merge idioms are translated literally (including the
`-1` sentinel and the `|| 0` fallback).
-/

namespace SonnerSolid

/-- Model of the `ToastT` record (src/src/types.ts).  Only the fields the
claims speak about are kept; optional fields are `Option` so that a publish
which leaves a field unspecified is `none` there, matching an absent JS
property under object-spread merge. -/
structure ToastT where
  id : Nat
  title : Option String := none
  description : Option String := none
  ttype : Option String := none
  duration : Option Int := none
  dismissible : Option Bool := none
  deriving DecidableEq, Repr

/-- Object-spread merge `{ ...prior, ...incoming }`: every field present on
the incoming record overrides, every field it leaves unspecified is retained
from the prior record (src/src/index.tsx line 525). -/
def mergeToast (prior incoming : ToastT) : ToastT :=
  { id := incoming.id
    title := incoming.title.or prior.title
    description := incoming.description.or prior.description
    ttype := incoming.ttype.or prior.ttype
    duration := incoming.duration.or prior.duration
    dismissible := incoming.dismissible.or prior.dismissible }

/-- JavaScript `Array.prototype.findIndex`: index of the first element
satisfying the predicate, `-1` when there is none. -/
def jsFindIndex (p : α → Bool) : List α → Int
  | [] => -1
  | x :: xs =>
      if p x then 0
      else
        let r := jsFindIndex p xs
        if r = -1 then -1 else r + 1

/-- Subscriber handler of `useSonner` (src/src/index.tsx lines 516-532):
`findIndex` on the active list; when the id exists, rebuild the list as
`slice(0, i) ++ [{ ...toasts[i], ...toast }] ++ slice(i + 1)`, otherwise
prepend `[toast, ...toasts]`. -/
def upsertToast (toasts : List ToastT) (t : ToastT) : List ToastT :=
  let indexOfExistingToast := jsFindIndex (fun x => x.id = t.id) toasts
  if indexOfExistingToast ≠ -1 then
    match toasts[indexOfExistingToast.toNat]? with
    | some prior =>
        toasts.take indexOfExistingToast.toNat
          ++ [mergeToast prior t]
          ++ toasts.drop (indexOfExistingToast.toNat + 1)
    | none => t :: toasts
  else
    t :: toasts

/-- Modelled from the spec: the Notification Registry of spec section 4.1
lives in `src/state` which is not among the repository files given; per the
spec, `publish(record)` upserts by id "preserving unspecified fields from a
prior version" and "notifies all subscribers with the resulting merged
record", once per publish.  `upsertById` is the registry's internal upsert
(append on miss, merge in place on hit). -/
def upsertById : List ToastT → ToastT → List ToastT
  | [], t => [t]
  | x :: xs, t => if x.id = t.id then mergeToast x t :: xs else x :: upsertById xs t

/-- Modelled from the spec: the merged record the registry hands to its
subscribers for one publish (the prior record with the same id merged with
the incoming fields, or the incoming record itself when the id is new). -/
def regMerged : List ToastT → ToastT → ToastT
  | [], t => t
  | x :: xs, t => if x.id = t.id then mergeToast x t else regMerged xs t

/-- Modelled from the spec: registry state, with `emitted` the sequence of
records delivered to a subscriber, one per publish, in publish order. -/
structure Registry where
  toasts : List ToastT
  emitted : List ToastT

/-- Modelled from the spec: one `publish` call — upsert by id and notify the
subscriber exactly once with the merged record. -/
def Registry.publish (r : Registry) (t : ToastT) : Registry :=
  { toasts := upsertById r.toasts t
    emitted := r.emitted ++ [regMerged r.toasts t] }

/- Helper lemmas for the publish/upsert argument. -/

theorem jsFindIndex_eq_neg_one {p : α → Bool} {l : List α}
    (h : ∀ x ∈ l, p x = false) : jsFindIndex p l = -1 := by
  induction l with
  | nil => rfl
  | cons x xs ih =>
      have hx : p x = false := h x (List.mem_cons_self x xs)
      have hxs : jsFindIndex p xs = -1 := ih fun y hy => h y (List.mem_cons_of_mem x hy)
      simp [jsFindIndex, hx, hxs]

theorem regMerged_of_not_mem {l : List ToastT} {t : ToastT}
    (h : ∀ x ∈ l, x.id ≠ t.id) : regMerged l t = t := by
  induction l with
  | nil => rfl
  | cons x xs ih =>
      have hx : x.id ≠ t.id := h x (List.mem_cons_self x xs)
      have := ih fun y hy => h y (List.mem_cons_of_mem x hy)
      simp [regMerged, hx, this]

theorem upsertById_of_not_mem {l : List ToastT} {t : ToastT}
    (h : ∀ x ∈ l, x.id ≠ t.id) : upsertById l t = l ++ [t] := by
  induction l with
  | nil => rfl
  | cons x xs ih =>
      have hx : x.id ≠ t.id := h x (List.mem_cons_self x xs)
      have := ih fun y hy => h y (List.mem_cons_of_mem x hy)
      simp [upsertById, hx, this]

theorem regMerged_append_of_not_mem {l l2 : List ToastT} {t : ToastT}
    (h : ∀ x ∈ l, x.id ≠ t.id) : regMerged (l ++ l2) t = regMerged l2 t := by
  induction l with
  | nil => rfl
  | cons x xs ih =>
      have hx : x.id ≠ t.id := h x (List.mem_cons_self x xs)
      have := ih fun y hy => h y (List.mem_cons_of_mem x hy)
      simp [regMerged, hx, this]

theorem mergeToast_id (prior incoming : ToastT) :
    (mergeToast prior incoming).id = incoming.id := rfl

theorem or_self_or (a b : Option α) : (a.or b).or b = a.or b := by
  cases a <;> cases b <;> rfl

theorem mergeToast_absorb (a b : ToastT) :
    mergeToast a (mergeToast a b) = mergeToast a b := by
  simp [mergeToast, or_self_or]

theorem upsertToast_of_not_mem {l : List ToastT} {t : ToastT}
    (h : ∀ x ∈ l, x.id ≠ t.id) : upsertToast l t = t :: l := by
  have hidx : jsFindIndex (fun x => x.id = t.id) l = -1 :=
    jsFindIndex_eq_neg_one fun x hx => by simp [h x hx]
  simp [upsertToast, hidx]

theorem upsertToast_cons_hit (a : ToastT) (l : List ToastT) (t : ToastT)
    (hid : a.id = t.id) : upsertToast (a :: l) t = mergeToast a t :: l := by
  simp [upsertToast, jsFindIndex, hid]

/-- Subscriber side of `useSonner`: the active-toast list after the handler
(src/src/index.tsx lines 516-532) has processed each delivered record in
order. -/
def sonnerHandle (s : List ToastT) (delivered : List ToastT) : List ToastT :=
  delivered.foldl upsertToast s

/-- C1: publishing a record whose id already exists among the active toasts
yields exactly one record with that id whose fields are the field-wise merge
of the prior record and the new publish — every field the second publish
specifies takes precedence, every field it leaves unspecified is retained —
and the subscriber is notified once per publish (two notifications for two
publishes), never given a duplicate entry. -/
theorem publish_existing_id_merges (r0 : Registry) (s0 : List ToastT)
    (a b : ToastT) (hab : a.id = b.id)
    (hr : ∀ x ∈ r0.toasts, x.id ≠ b.id)
    (hs : ∀ x ∈ s0, x.id ≠ b.id) :
    ((r0.publish a).publish b).emitted = r0.emitted ++ [a, mergeToast a b]
    ∧ sonnerHandle s0 [a, mergeToast a b] = mergeToast a b :: s0
    ∧ (sonnerHandle s0 [a, mergeToast a b]).countP (fun x => x.id = b.id) = 1
    ∧ (mergeToast a b).id = b.id
    ∧ (mergeToast a b).title = b.title.or a.title
    ∧ (mergeToast a b).description = b.description.or a.description
    ∧ (mergeToast a b).ttype = b.ttype.or a.ttype
    ∧ (mergeToast a b).duration = b.duration.or a.duration
    ∧ (mergeToast a b).dismissible = b.dismissible.or a.dismissible := by
  have hra : ∀ x ∈ r0.toasts, x.id ≠ a.id := fun x hx => hab ▸ hr x hx
  have hsa : ∀ x ∈ s0, x.id ≠ a.id := fun x hx => hab ▸ hs x hx
  have hup : upsertById r0.toasts a = r0.toasts ++ [a] := upsertById_of_not_mem hra
  have hm1 : regMerged r0.toasts a = a := regMerged_of_not_mem hra
  have hm2 : regMerged (r0.toasts ++ [a]) b = mergeToast a b := by
    rw [regMerged_append_of_not_mem hr]
    simp [regMerged, hab]
  have hhandle : sonnerHandle s0 [a, mergeToast a b] = mergeToast a b :: s0 := by
    have h1 : upsertToast s0 a = a :: s0 := upsertToast_of_not_mem hsa
    have h2 : upsertToast (a :: s0) (mergeToast a b) = mergeToast a b :: s0 := by
      rw [upsertToast_cons_hit a s0 (mergeToast a b) (by rw [mergeToast_id]; exact hab)]
      rw [mergeToast_absorb]
    simp [sonnerHandle, h1, h2]
  refine ⟨?_, hhandle, ?_, rfl, rfl, rfl, rfl, rfl, rfl⟩
  · simp [Registry.publish, hup, hm1, hm2]
  · rw [hhandle]
    rw [List.countP_cons]
    have hz : s0.countP (fun x => decide (x.id = b.id)) = 0 := by
      rw [List.countP_eq_zero]
      intro x hx
      simp [hs x hx]
    simp [hz, mergeToast_id, hab]

/-- Witness for C1 at a concrete input: two publishes of id 7, the second
overriding the description and leaving title and duration untouched. -/
theorem publish_existing_id_merges_witness :
    (((Registry.mk [] []).publish
        ⟨7, some "first", none, none, some 5000, none⟩).publish
        ⟨7, none, some "desc", none, none, none⟩).emitted
      = [] ++ [⟨7, some "first", none, none, some 5000, none⟩,
          mergeToast ⟨7, some "first", none, none, some 5000, none⟩
            ⟨7, none, some "desc", none, none, none⟩]
    ∧ sonnerHandle [] [⟨7, some "first", none, none, some 5000, none⟩,
          mergeToast ⟨7, some "first", none, none, some 5000, none⟩
            ⟨7, none, some "desc", none, none, none⟩]
        = [mergeToast ⟨7, some "first", none, none, some 5000, none⟩
            ⟨7, none, some "desc", none, none, none⟩]
    ∧ mergeToast ⟨7, some "first", none, none, some 5000, none⟩
        ⟨7, none, some "desc", none, none, none⟩
        = ⟨7, some "first", some "desc", none, some 5000, none⟩ := by
  have h := publish_existing_id_merges (Registry.mk [] []) []
    ⟨7, some "first", none, none, some 5000, none⟩
    ⟨7, none, some "desc", none, none, none⟩ rfl
    (by intro x hx; simp at hx) (by intro x hx; simp at hx)
  exact ⟨h.1, h.2.1, by decide⟩

/-! Layout engine: `heightIndex`, `toastsHeightBefore` and `offset`
(src/src/index.tsx lines 104-127).  The `props.heights` list a `Toast`
receives is already filtered to its screen position (line 817), so the
definitions take that position-filtered sequence directly. -/

/-- Model of the `HeightT` entry (src/src/types.ts): measured height keyed by
toast id.  Heights are integral pixels here; the layout arithmetic is the
same sums and products as the source. -/
structure HeightT where
  toastId : Nat
  height : Int
  deriving DecidableEq, Repr

/-- The raw `findIndex` over the heights sequence (line 104), `-1` when the
toast has no height entry. -/
def heightIndexRaw (hs : List HeightT) (id : Nat) : Int :=
  jsFindIndex (fun h => h.toastId = id) hs

/-- JavaScript `x || 0`: `0` when `x` is falsy (i.e. `0`), otherwise `x`
itself — in particular `-1 || 0 = -1` because `-1` is truthy. -/
def jsOrZero (x : Int) : Int := if x = 0 then 0 else x

/-- `heightIndex` (line 104): `heights.findIndex(...) || 0`. -/
def heightIndex (hs : List HeightT) (id : Nat) : Int :=
  jsOrZero (heightIndexRaw hs id)

/-- The summation loop of `toastsHeightBefore` (lines 113-120): walk the
heights with index `i`, break as soon as `i >= heightIndex`, otherwise add
the entry's height. -/
def sumHeightsBefore (bound : Int) : Int → List HeightT → Int
  | _, [] => 0
  | i, h :: rest => if bound ≤ i then 0 else h.height + sumHeightsBefore bound (i + 1) rest

/-- `toastsHeightBefore` (lines 113-120). -/
def toastsHeightBefore (hs : List HeightT) (id : Nat) : Int :=
  sumHeightsBefore (heightIndex hs id) 0 hs

/-- `offset` (line 127): `heightIndex * gap + toastsHeightBefore`. -/
def offset (hs : List HeightT) (id : Nat) (gap : Int) : Int :=
  heightIndex hs id * gap + toastsHeightBefore hs id

theorem sumHeightsBefore_stop {bound i : Int} (hs : List HeightT) (h : bound ≤ i) :
    sumHeightsBefore bound i hs = 0 := by
  cases hs with
  | nil => rfl
  | cons x xs => simp [sumHeightsBefore, h]

theorem sumHeightsBefore_nat (hs : List HeightT) (b : Nat) :
    ∀ j : Nat, sumHeightsBefore (b : Int) (j : Int) hs
      = ((hs.take (b - j)).map HeightT.height).sum := by
  induction hs with
  | nil => intro j; simp [sumHeightsBefore]
  | cons x xs ih =>
      intro j
      by_cases hle : b ≤ j
      · have hstop : ((b : Int)) ≤ (j : Int) := by exact_mod_cast hle
        rw [sumHeightsBefore_stop _ hstop]
        have : b - j = 0 := Nat.sub_eq_zero_of_le hle
        simp [this]
      · have hlt : j < b := Nat.lt_of_not_le hle
        have hnot : ¬ ((b : Int) ≤ (j : Int)) := by exact_mod_cast hle
        have hj1 : ((j : Int) + 1) = ((j + 1 : Nat) : Int) := by push_cast; ring
        have hsub : b - j = (b - (j + 1)) + 1 := by omega
        simp only [sumHeightsBefore, if_neg hnot, hj1, ih (j + 1), hsub]
        simp [List.take_succ_cons]

theorem jsFindIndex_cons_true {p : α → Bool} {x : α} (xs : List α) (h : p x = true) :
    jsFindIndex p (x :: xs) = 0 := by
  simp [jsFindIndex, h]

theorem jsFindIndex_nonneg_of_some {p : α → Bool} {l : List α} {i : Int}
    (h : jsFindIndex p l = i) (hne : i ≠ -1) : 0 ≤ i := by
  induction l generalizing i with
  | nil => simp [jsFindIndex] at h; omega
  | cons x xs ih =>
      by_cases hx : p x
      · simp [jsFindIndex, hx] at h; omega
      · simp only [jsFindIndex, hx, if_false, Bool.false_eq_true] at h
        by_cases hr : jsFindIndex p xs = -1
        · simp [hr] at h; omega
        · simp [hr] at h
          have h0 : 0 ≤ jsFindIndex p xs := ih rfl hr
          omega

/-- The index the code computes agrees with a hypothesised `findIndex`
result: when the raw index is the natural number `i`, `heightIndex` is `i`
(the `|| 0` fallback is the identity on non-negative indices). -/
theorem heightIndex_of_raw {hs : List HeightT} {id : Nat} {i : Nat}
    (h : heightIndexRaw hs id = (i : Int)) : heightIndex hs id = (i : Int) := by
  unfold heightIndex jsOrZero
  rw [h]
  by_cases hz : (i : Int) = 0
  · simp [hz]
  · simp [hz]

/-- C2: for a toast whose id has an entry in the position-filtered heights
sequence at index `i`, the computed offset is `i * gap` plus the sum of the
heights of all entries preceding index `i`. -/
theorem offset_eq_gap_mul_index_add_heights (hs : List HeightT) (id : Nat)
    (gap : Int) (i : Nat) (h : heightIndexRaw hs id = (i : Int)) :
    offset hs id gap = (i : Int) * gap + ((hs.take i).map HeightT.height).sum := by
  have hidx := heightIndex_of_raw h
  unfold offset toastsHeightBefore
  rw [hidx]
  have := sumHeightsBefore_nat hs i 0
  simpa using this

/-- Witness for C2 at the spec's concrete layout: heights `[40, 60, 50]` at
gap `14` give offsets `[0, 54, 128]`. -/
theorem offset_eq_gap_mul_index_add_heights_witness :
    offset [⟨1, 40⟩, ⟨2, 60⟩, ⟨3, 50⟩] 1 14 = 0
    ∧ offset [⟨1, 40⟩, ⟨2, 60⟩, ⟨3, 50⟩] 2 14 = 54
    ∧ offset [⟨1, 40⟩, ⟨2, 60⟩, ⟨3, 50⟩] 3 14 = 128 := by
  refine ⟨?_, ?_, ?_⟩
  · exact (offset_eq_gap_mul_index_add_heights [⟨1, 40⟩, ⟨2, 60⟩, ⟨3, 50⟩] 1 14 0
      (by decide)).trans (by decide)
  · exact (offset_eq_gap_mul_index_add_heights [⟨1, 40⟩, ⟨2, 60⟩, ⟨3, 50⟩] 2 14 1
      (by decide)).trans (by decide)
  · exact (offset_eq_gap_mul_index_add_heights [⟨1, 40⟩, ⟨2, 60⟩, ⟨3, 50⟩] 3 14 2
      (by decide)).trans (by decide)

/-- C10: for a toast whose id has no entry in the heights list, `findIndex`
returns `-1`, the `|| 0` fallback does not apply (`-1` is truthy), and the
offset is `-1 * gap + 0 = -gap` — negative whenever the gap is positive. -/
theorem offset_of_absent_id (hs : List HeightT) (id : Nat) (gap : Int)
    (h : heightIndexRaw hs id = -1) (hgap : 0 < gap) :
    heightIndex hs id = -1 ∧ offset hs id gap = -gap ∧ offset hs id gap < 0 := by
  have hidx : heightIndex hs id = -1 := by
    unfold heightIndex jsOrZero
    rw [h]
    decide
  have hsum : sumHeightsBefore (-1) 0 hs = 0 := sumHeightsBefore_stop hs (by omega)
  have hoff : offset hs id gap = -gap := by
    unfold offset toastsHeightBefore
    rw [hidx, hsum]
    ring
  exact ⟨hidx, hoff, by omega⟩

/-- Witness for C10 at a concrete input: id 99 has no entry among heights
`[40, 60, 50]`, so with gap 14 the offset is `-14`, a negative value. -/
theorem offset_of_absent_id_witness :
    heightIndex [⟨1, 40⟩, ⟨2, 60⟩, ⟨3, 50⟩] 99 = -1
    ∧ offset [⟨1, 40⟩, ⟨2, 60⟩, ⟨3, 50⟩] 99 14 = -14
    ∧ offset [⟨1, 40⟩, ⟨2, 60⟩, ⟨3, 50⟩] 99 14 < 0 := by
  have h := offset_of_absent_id [⟨1, 40⟩, ⟨2, 60⟩, ⟨3, 50⟩] 99 14 (by decide) (by decide)
  exact ⟨h.1, h.2.1, h.2.2⟩

/-! Lifecycle: `deleteToast` (src/src/index.tsx lines 155-164) and the
reported `--offset` style value (line 264). -/

/-- The per-toast local signals `deleteToast` and the style computation read:
`removed` and `offsetBeforeRemove`. -/
structure ToastLocal where
  removed : Bool
  offsetBeforeRemove : Int
  deriving DecidableEq, Repr

/-- The `--offset` the toast reports (line 264):
`removed() ? offsetBeforeRemove() : offset()`. -/
def reportedOffset (s : ToastLocal) (hs : List HeightT) (id : Nat) (gap : Int) : Int :=
  if s.removed then s.offsetBeforeRemove else offset hs id gap

/-- `deleteToast` (lines 155-164): set `removed`, capture the current offset
into `offsetBeforeRemove`, then drop the toast's own height entry.  (The
`removeToast` purge is scheduled 200 ms later and does not touch these
signals.) -/
def deleteToast (_s : ToastLocal) (hs : List HeightT) (id : Nat) (gap : Int) :
    ToastLocal × List HeightT :=
  ({ removed := true, offsetBeforeRemove := offset hs id gap },
   hs.filter (fun h => h.toastId ≠ id))

/-- Sibling activity on the height ledger during the grace period: entries
are prepended on mount and filtered out on removal (lines 144-151, 159). -/
inductive HeightOp
  | add (entry : HeightT)
  | remove (id : Nat)

/-- Apply a sequence of sibling height operations. -/
def applyHeightOps (hs : List HeightT) : List HeightOp → List HeightT
  | [] => hs
  | HeightOp.add e :: ops => applyHeightOps (e :: hs) ops
  | HeightOp.remove i :: ops => applyHeightOps (hs.filter (fun h => h.toastId ≠ i)) ops

/-- C7: once `deleteToast` has run (the `removed` flag set and the current
offset captured), the offset the toast reports stays fixed at the captured
value no matter how height entries for sibling toasts are added or removed
afterwards. -/
theorem reported_offset_frozen_after_delete (s : ToastLocal) (hs : List HeightT)
    (id : Nat) (gap : Int) (ops : List HeightOp) :
    reportedOffset (deleteToast s hs id gap).1
        (applyHeightOps (deleteToast s hs id gap).2 ops) id gap
      = offset hs id gap := rfl

/-! Timer controller: `pauseTimer` and `startTimer` inside the timer effect
(src/src/index.tsx lines 166-206).  Timestamps and durations are integer
milliseconds; `scheduledFireAt` models the pending `setTimeout` (the effect's
`onCleanup` clears the previous timeout before either branch runs again, so
both steps drop it). -/

/-- The mutable timer refs of one toast: `remainingTime`,
`closeTimerStartTimeRef`, `lastCloseTimerStartTimeRef` (initialised to 0),
plus the pending timeout's absolute fire time. -/
structure TimerState where
  remainingTime : Int
  closeTimerStartTimeRef : Int
  lastCloseTimerStartTimeRef : Int
  scheduledFireAt : Option Int
  deriving DecidableEq, Repr

/-- Timer state when the toast mounts: `remainingTime` is the effective
duration, both timestamp refs are 0, nothing scheduled. -/
def initTimer (duration : Int) : TimerState :=
  { remainingTime := duration
    closeTimerStartTimeRef := 0
    lastCloseTimerStartTimeRef := 0
    scheduledFireAt := none }

/-- `pauseTimer` (lines 171-180): subtract the elapsed time only when the
last pause-check timestamp is earlier than the timer-start timestamp, then
stamp the pause-check time.  The cleared pending timeout is dropped. -/
def pauseTimer (now : Int) (s : TimerState) : TimerState :=
  let s1 :=
    if s.lastCloseTimerStartTimeRef < s.closeTimerStartTimeRef then
      { s with remainingTime := s.remainingTime - (now - s.closeTimerStartTimeRef) }
    else s
  { s1 with lastCloseTimerStartTimeRef := now, scheduledFireAt := none }

/-- `startTimer` (lines 182-195) in the finite-duration case: stamp the
timer-start time and schedule the auto-close callback `remainingTime`
milliseconds from now. -/
def startTimer (now : Int) (s : TimerState) : TimerState :=
  { s with closeTimerStartTimeRef := now
           scheduledFireAt := some (now + s.remainingTime) }

/-- One run of the timer effect (lines 197-201): the paused branch calls
`pauseTimer`, the running branch calls `startTimer`. -/
inductive TimerEv
  | start (t : Int)
  | pause (t : Int)

/-- Apply one effect run to the timer refs. -/
def timerStep (s : TimerState) : TimerEv → TimerState
  | TimerEv.start t => startTimer t s
  | TimerEv.pause t => pauseTimer t s

/-- Run a sequence of effect runs. -/
def runTimer (s : TimerState) (evs : List TimerEv) : TimerState :=
  evs.foldl timerStep s

/-- One running phase: a `start`, the pause that ends the running interval,
and any number of further (redundant) pause signals while already paused. -/
structure Phase where
  startT : Int
  firstPause : Int
  extraPauses : List Int

/-- The last pause-check timestamp a phase leaves behind. -/
def Phase.lastPause (ph : Phase) : Int :=
  ph.extraPauses.getLastD ph.firstPause

/-- The effect runs of one phase, in order. -/
def Phase.events (ph : Phase) : List TimerEv :=
  TimerEv.start ph.startT :: TimerEv.pause ph.firstPause
    :: ph.extraPauses.map TimerEv.pause

/-- The effect runs of a sequence of phases. -/
def phasesEvents (phs : List Phase) : List TimerEv :=
  (phs.map Phase.events).flatten

/-- Total time spent in the running state: per phase, the interval from its
`start` to the first pause that follows. -/
def runningElapsed (phs : List Phase) : Int :=
  (phs.map (fun ph => ph.firstPause - ph.startT)).sum

/-- Well-formed timestamps: each phase starts strictly after the previous
pause-check stamp (`prevLast`), and every pause of the phase is at or after
its start.  Redundant pauses may come in any order and any number. -/
def phasesWF : Int → List Phase → Bool
  | _, [] => true
  | prevLast, ph :: rest =>
      decide (prevLast < ph.startT) && decide (ph.startT ≤ ph.firstPause)
        && ph.extraPauses.all (fun p => decide (ph.startT ≤ p))
        && phasesWF ph.lastPause rest

theorem runTimer_append (s : TimerState) (l1 l2 : List TimerEv) :
    runTimer s (l1 ++ l2) = runTimer (runTimer s l1) l2 := by
  simp [runTimer, List.foldl_append]

theorem runTimer_extraPauses (s : TimerState) (ps : List Int)
    (hle : s.closeTimerStartTimeRef ≤ s.lastCloseTimerStartTimeRef)
    (hps : ∀ p ∈ ps, s.closeTimerStartTimeRef ≤ p) :
    (runTimer s (ps.map TimerEv.pause)).remainingTime = s.remainingTime
    ∧ (runTimer s (ps.map TimerEv.pause)).closeTimerStartTimeRef
        = s.closeTimerStartTimeRef
    ∧ (runTimer s (ps.map TimerEv.pause)).lastCloseTimerStartTimeRef
        = ps.getLastD s.lastCloseTimerStartTimeRef := by
  induction ps generalizing s with
  | nil => exact ⟨rfl, rfl, rfl⟩
  | cons p rest ih =>
      have hp : s.closeTimerStartTimeRef ≤ p := hps p (List.mem_cons_self p rest)
      have hguard : ¬ (s.lastCloseTimerStartTimeRef < s.closeTimerStartTimeRef) := by
        omega
      have hstep : timerStep s (TimerEv.pause p)
          = { s with lastCloseTimerStartTimeRef := p, scheduledFireAt := none } := by
        simp [timerStep, pauseTimer, hguard]
      have hrun : runTimer s ((p :: rest).map TimerEv.pause)
          = runTimer { s with lastCloseTimerStartTimeRef := p, scheduledFireAt := none }
              (rest.map TimerEv.pause) := by
        simp [runTimer, hstep]
      have hih := ih { s with lastCloseTimerStartTimeRef := p, scheduledFireAt := none }
        (by simpa using hp)
        (fun q hq => hps q (List.mem_cons_of_mem p hq))
      rw [hrun, List.getLastD_cons]
      exact hih

theorem runTimer_phases (phs : List Phase) :
    ∀ s : TimerState, phasesWF s.lastCloseTimerStartTimeRef phs = true →
    (runTimer s (phasesEvents phs)).remainingTime
        = s.remainingTime - runningElapsed phs
    ∧ (runTimer s (phasesEvents phs)).lastCloseTimerStartTimeRef
        = phs.foldl (fun _ ph => ph.lastPause) s.lastCloseTimerStartTimeRef := by
  induction phs with
  | nil =>
      intro s _
      simp [phasesEvents, runTimer, runningElapsed]
  | cons ph rest ih =>
      intro s hwf
      simp only [phasesWF, Bool.and_eq_true, decide_eq_true_eq, List.all_eq_true] at hwf
      obtain ⟨⟨⟨h1, h2⟩, h3⟩, h4⟩ := hwf
      have hev : phasesEvents (ph :: rest) = ph.events ++ phasesEvents rest := by
        simp [phasesEvents, Phase.events]
      rw [hev, runTimer_append]
      have hstart : runTimer s (ph.events)
          = runTimer (pauseTimer ph.firstPause (startTimer ph.startT s))
              (ph.extraPauses.map TimerEv.pause) := by
        simp [Phase.events, runTimer, timerStep]
      have hpause : pauseTimer ph.firstPause (startTimer ph.startT s)
          = { remainingTime := s.remainingTime - (ph.firstPause - ph.startT)
              closeTimerStartTimeRef := ph.startT
              lastCloseTimerStartTimeRef := ph.firstPause
              scheduledFireAt := none } := by
        simp [pauseTimer, startTimer, h1]
      set s2 : TimerState :=
        { remainingTime := s.remainingTime - (ph.firstPause - ph.startT)
          closeTimerStartTimeRef := ph.startT
          lastCloseTimerStartTimeRef := ph.firstPause
          scheduledFireAt := none } with hs2
      have hextras := runTimer_extraPauses s2 ph.extraPauses
        (by rw [hs2]; exact h2)
        (by intro p hp; rw [hs2]; exact h3 p hp)
      have hlastp : (runTimer s2 (ph.extraPauses.map TimerEv.pause)).lastCloseTimerStartTimeRef
          = ph.lastPause := by
        rw [hextras.2.2, hs2]
        rfl
      have hrest := ih (runTimer s2 (ph.extraPauses.map TimerEv.pause))
        (by rw [hlastp]; exact h4)
      constructor
      · rw [hstart, hpause, hrest.1, hextras.1, hs2]
        simp [runningElapsed]
        ring
      · rw [hstart, hpause, hrest.2, hlastp]
        simp [Phase.lastPause]

/-- C3: a pause signal arriving while the timer is already paused does not
subtract elapsed time again, so for any alternation of running phases and
pauses (with arbitrarily many redundant pause signals), the remaining time
decreases by exactly the time spent running; resuming at time `T` schedules
the auto-close callback at `T + (duration - total running time)` — for a
4000 ms toast paused after 1000 ms of running, exactly 3000 ms of unpaused
time after the resume. -/
theorem timer_pause_resume_conserves (duration : Int) (phs : List Phase) (T : Int)
    (hwf : phasesWF 0 phs = true) :
    (runTimer (initTimer duration) (phasesEvents phs ++ [TimerEv.start T])).remainingTime
        = duration - runningElapsed phs
    ∧ (runTimer (initTimer duration) (phasesEvents phs ++ [TimerEv.start T])).scheduledFireAt
        = some (T + (duration - runningElapsed phs)) := by
  have h0 : (initTimer duration).lastCloseTimerStartTimeRef = 0 := rfl
  have hph := runTimer_phases phs (initTimer duration) (by rw [h0]; exact hwf)
  rw [runTimer_append]
  set sF := runTimer (initTimer duration) (phasesEvents phs) with hsF
  have hrem : sF.remainingTime = duration - runningElapsed phs := by
    rw [hsF, hph.1]; rfl
  constructor
  · simp [runTimer, timerStep, startTimer, hrem]
  · simp [runTimer, timerStep, startTimer, hrem]

/-- Witness for C3: duration 4000, started at t = 1000000, paused at
t = 1001000 (1000 ms of running) with two redundant pause signals, resumed
at t = 2000000: the callback is scheduled for t = 2003000, i.e. 3000 ms of
unpaused time later, and the remaining time is 3000. -/
theorem timer_pause_resume_conserves_witness :
    (runTimer (initTimer 4000)
        (phasesEvents [⟨1000000, 1001000, [1001500, 1002000]⟩]
          ++ [TimerEv.start 2000000])).remainingTime = 3000
    ∧ (runTimer (initTimer 4000)
        (phasesEvents [⟨1000000, 1001000, [1001500, 1002000]⟩]
          ++ [TimerEv.start 2000000])).scheduledFireAt = some 2003000 := by
  have h := timer_pause_resume_conserves 4000 [⟨1000000, 1001000, [1001500, 1002000]⟩]
    2000000 (by decide)
  exact ⟨h.1.trans (by decide), h.2.trans (by decide)⟩

/-! Timer activation guards (src/src/index.tsx lines 96, 166-167, 182-195):
the effect bails out for `duration === Infinity` or loading toasts, and
`startTimer` additionally refuses to hand `Infinity` to `setTimeout`. -/

/-- A JavaScript duration value: a finite number of milliseconds or
`Infinity`. -/
inductive JDur
  | fin (ms : Int)
  | inf
  deriving DecidableEq, Repr

/-- `remainingTime` initialisation (line 96):
`toast.duration ?? durationFromToaster ?? TOAST_LIFETIME` with
`TOAST_LIFETIME = 4000`. -/
def initialRemaining (toastDuration toasterDuration : Option JDur) : JDur :=
  toastDuration.getD (toasterDuration.getD (JDur.fin 4000))

/-- The timer effect (lines 166-201) reduced to the delay it passes to the
scheduling primitive: `none` when no timer is started (the effect returns
early for `duration === Infinity` or a loading toast; the paused branch
calls `pauseTimer`; `startTimer` returns early when `remainingTime` is
`Infinity`), otherwise `some` of the finite delay given to `setTimeout`. -/
def timerEffectDelay (toastDuration toasterDuration : Option JDur)
    (isLoading paused : Bool) : Option JDur :=
  if toastDuration = some JDur.inf || isLoading then none
  else if paused then none
  else
    let remainingTime := initialRemaining toastDuration toasterDuration
    if remainingTime = JDur.inf then none
    else some remainingTime

/-- `onAutoClose` is invoked only by the callback of a scheduled timer
(lines 191-194): with no delay passed to `setTimeout` it is never invoked. -/
def autoCloseInvocations (delay : Option JDur) : Nat :=
  match delay with
  | some _ => 1
  | none => 0

/-- C4: a timer is started only when the effective remaining duration is
finite and the toast is not of type loading; for a toast whose duration is
`Infinity` (on the toast itself or inherited from the toaster) or whose type
is loading, the infinite delay is never passed to the scheduling primitive
and `onAutoClose` is never invoked, regardless of elapsed time. -/
theorem timer_never_scheduled_for_infinite_or_loading
    (toastDuration toasterDuration : Option JDur) (isLoading paused : Bool) :
    (∀ d, timerEffectDelay toastDuration toasterDuration isLoading paused = some d →
      d ≠ JDur.inf ∧ d = initialRemaining toastDuration toasterDuration
        ∧ isLoading = false)
    ∧ (toastDuration = some JDur.inf →
        timerEffectDelay toastDuration toasterDuration isLoading paused = none
        ∧ autoCloseInvocations
            (timerEffectDelay toastDuration toasterDuration isLoading paused) = 0)
    ∧ (isLoading = true →
        timerEffectDelay toastDuration toasterDuration isLoading paused = none
        ∧ autoCloseInvocations
            (timerEffectDelay toastDuration toasterDuration isLoading paused) = 0)
    ∧ (initialRemaining toastDuration toasterDuration = JDur.inf →
        timerEffectDelay toastDuration toasterDuration isLoading paused = none
        ∧ autoCloseInvocations
            (timerEffectDelay toastDuration toasterDuration isLoading paused) = 0) := by
  refine ⟨?_, ?_, ?_, ?_⟩
  · intro d hd
    unfold timerEffectDelay at hd
    by_cases h1 : toastDuration = some JDur.inf ∨ isLoading = true
    · rw [if_pos (by simpa using h1)] at hd
      exact absurd hd (by simp)
    · push_neg at h1
      rw [if_neg (by simpa using h1)] at hd
      by_cases hp : paused
      · simp [hp] at hd
      · simp only [hp, if_false, Bool.false_eq_true] at hd
        by_cases hinf : initialRemaining toastDuration toasterDuration = JDur.inf
        · simp [hinf] at hd
        · simp only [hinf, if_false, if_neg hinf, Option.some.injEq] at hd
          refine ⟨?_, hd.symm, by simpa using h1.2⟩
          rw [← hd]
          exact hinf
  · intro h
    have : timerEffectDelay toastDuration toasterDuration isLoading paused = none := by
      unfold timerEffectDelay
      simp [h]
    exact ⟨this, by simp [this, autoCloseInvocations]⟩
  · intro h
    have : timerEffectDelay toastDuration toasterDuration isLoading paused = none := by
      unfold timerEffectDelay
      simp [h]
    exact ⟨this, by simp [this, autoCloseInvocations]⟩
  · intro h
    have : timerEffectDelay toastDuration toasterDuration isLoading paused = none := by
      unfold timerEffectDelay
      by_cases h1 : toastDuration = some JDur.inf ∨ isLoading = true
      · rw [if_pos (by simpa using h1)]
      · push_neg at h1
        rw [if_neg (by simpa using h1)]
        by_cases hp : paused <;> simp [hp, h]
    exact ⟨this, by simp [this, autoCloseInvocations]⟩

/-- Witness for C4 at concrete inputs: a toast with `duration = Infinity`, a
loading toast, and a toast inheriting `Infinity` from the toaster all start
no timer and never invoke `onAutoClose`. -/
theorem timer_never_scheduled_for_infinite_or_loading_witness :
    (timerEffectDelay (some JDur.inf) none false false = none
      ∧ autoCloseInvocations (timerEffectDelay (some JDur.inf) none false false) = 0)
    ∧ (timerEffectDelay (some (JDur.fin 4000)) none true false = none
      ∧ autoCloseInvocations
          (timerEffectDelay (some (JDur.fin 4000)) none true false) = 0)
    ∧ (timerEffectDelay none (some JDur.inf) false false = none
      ∧ autoCloseInvocations (timerEffectDelay none (some JDur.inf) false false) = 0) :=
  ⟨(timer_never_scheduled_for_infinite_or_loading (some JDur.inf) none false false).2.1 rfl,
   (timer_never_scheduled_for_infinite_or_loading (some (JDur.fin 4000)) none true
      false).2.2.1 rfl,
   (timer_never_scheduled_for_infinite_or_loading none (some JDur.inf) false
      false).2.2.2 rfl⟩

/-! Swipe gesture: dampening (src/src/index.tsx lines 336-367) and the
pointer-up commit decision (lines 284-317).  JS numbers are modelled as
rationals. -/

/-- JavaScript `Math.abs` on a rational. -/
def jsAbs (q : ℚ) : ℚ := if q < 0 then -q else q

/-- `getDampening` (lines 336-340): `1 / (1.5 + |delta| / 20)`. -/
def getDampening (delta : ℚ) : ℚ :=
  let factor := jsAbs delta / 20
  1 / (3 / 2 + factor)

/-- The disallowed-direction branch of `onPointerMove` (lines 350-352 and
361-364): use the dampened delta unless its magnitude would reach the raw
delta's magnitude. -/
def appliedSwipe (delta : ℚ) : ℚ :=
  let dampenedDelta := delta * getDampening delta
  if jsAbs dampenedDelta < jsAbs delta then dampenedDelta else delta

theorem jsAbs_eq_abs (q : ℚ) : jsAbs q = |q| := by
  unfold jsAbs
  rcases lt_trichotomy q 0 with h | h | h
  · rw [if_pos h, abs_of_neg h]
  · simp [h]
  · rw [if_neg (by exact not_lt.mpr h.le), abs_of_pos h]

/-- C6: during a drag opposing every allowed direction, the applied swipe
amount equals the dampened value `delta / (1.5 + |delta| / 20)` whenever that
value's magnitude is smaller than the raw delta's, and the raw delta
otherwise; in every case its magnitude never exceeds `|delta|`. -/
theorem dampened_swipe_bounded (delta : ℚ) :
    delta * getDampening delta = delta / (3 / 2 + jsAbs delta / 20)
    ∧ (jsAbs (delta * getDampening delta) < jsAbs delta →
        appliedSwipe delta = delta * getDampening delta)
    ∧ (¬ jsAbs (delta * getDampening delta) < jsAbs delta →
        appliedSwipe delta = delta)
    ∧ jsAbs (appliedSwipe delta) ≤ jsAbs delta := by
  refine ⟨?_, ?_, ?_, ?_⟩
  · unfold getDampening
    simp [div_eq_mul_inv]
  · intro h
    unfold appliedSwipe
    rw [if_pos h]
  · intro h
    unfold appliedSwipe
    rw [if_neg h]
  · unfold appliedSwipe
    by_cases h : jsAbs (delta * getDampening delta) < jsAbs delta
    · rw [if_pos h]
      exact le_of_lt h
    · rw [if_neg h]

/-- Witness for C6 at a concrete input: delta = -30 gives the dampened value
-30 / (1.5 + 30/20) = -10, whose magnitude 10 is below 30, so the applied
amount is -10 and its magnitude stays within 30. -/
theorem dampened_swipe_bounded_witness :
    appliedSwipe (-30) = -10 ∧ jsAbs (appliedSwipe (-30)) ≤ jsAbs (-30) := by
  have h := dampened_swipe_bounded (-30)
  refine ⟨(h.2.1 (by norm_num [getDampening, jsAbs])).trans
    (by norm_num [getDampening, jsAbs]), h.2.2.2⟩

/-- The pointer-up commit condition (line 296):
`|swipeAmount| >= SWIPE_THRESHOLD || velocity > 0.11` with
`SWIPE_THRESHOLD = 45` and `velocity = |swipeAmount| / timeTaken`. -/
def swipeCommits (swipeAmount timeTaken : ℚ) : Bool :=
  let velocity := jsAbs swipeAmount / timeTaken
  decide (jsAbs swipeAmount ≥ 45) || decide (velocity > 11 / 100)

/-- Outcome of one `onPointerUp` run (lines 284-317), projected to the
callback invocations, the commit decision and the swipe-amount reset. -/
structure PointerUpOut where
  dismissCalls : Nat
  autoCloseCalls : Nat
  committed : Bool
  deleteStarted : Bool
  swipeOutSet : Bool
  newAmountX : ℚ
  newAmountY : ℚ
  deriving DecidableEq, Repr

/-- `onPointerUp` (lines 284-317): bail out when already swiped out, not
dismissible, or no drag was started; pick the locked axis's amount; commit
(invoke `onDismiss` once, start removal, set the swipe-out flag) when the
threshold or velocity test passes; otherwise reset both swipe amounts to
zero and stay active. -/
def onPointerUp (dismissible swipeOut dragActive dirIsX : Bool)
    (amtX amtY timeTaken : ℚ) : PointerUpOut :=
  if swipeOut || !dismissible || !dragActive then
    { dismissCalls := 0, autoCloseCalls := 0, committed := false
      deleteStarted := false, swipeOutSet := swipeOut
      newAmountX := amtX, newAmountY := amtY }
  else
    let swipeAmount := if dirIsX then amtX else amtY
    if swipeCommits swipeAmount timeTaken then
      { dismissCalls := 1, autoCloseCalls := 0, committed := true
        deleteStarted := true, swipeOutSet := true
        newAmountX := amtX, newAmountY := amtY }
    else
      { dismissCalls := 0, autoCloseCalls := 0, committed := false
        deleteStarted := false, swipeOutSet := false
        newAmountX := 0, newAmountY := 0 }

/-- C5: on pointer-up ending a drag on a dismissible toast, with velocity
`|finalSwipeAmount| / elapsedMs` along the locked axis, the gesture commits
(invoking `onDismiss` exactly once and starting removal) if and only if
`|finalSwipeAmount| >= 45` or the velocity exceeds 0.11; otherwise the swipe
amounts are reset to zero, neither callback is invoked, and the toast stays
active. -/
theorem pointer_up_commit_iff (dirIsX : Bool) (amtX amtY timeTaken : ℚ)
    (_ht : 0 < timeTaken) :
    ((onPointerUp true false true dirIsX amtX amtY timeTaken).committed = true
      ↔ (45 ≤ jsAbs (if dirIsX then amtX else amtY)
        ∨ 11 / 100 < jsAbs (if dirIsX then amtX else amtY) / timeTaken))
    ∧ ((onPointerUp true false true dirIsX amtX amtY timeTaken).committed = true →
        (onPointerUp true false true dirIsX amtX amtY timeTaken).dismissCalls = 1
          ∧ (onPointerUp true false true dirIsX amtX amtY timeTaken).autoCloseCalls = 0
          ∧ (onPointerUp true false true dirIsX amtX amtY timeTaken).deleteStarted = true
          ∧ (onPointerUp true false true dirIsX amtX amtY timeTaken).swipeOutSet = true)
    ∧ ((onPointerUp true false true dirIsX amtX amtY timeTaken).committed = false →
        (onPointerUp true false true dirIsX amtX amtY timeTaken).dismissCalls = 0
          ∧ (onPointerUp true false true dirIsX amtX amtY timeTaken).autoCloseCalls = 0
          ∧ (onPointerUp true false true dirIsX amtX amtY timeTaken).deleteStarted = false
          ∧ (onPointerUp true false true dirIsX amtX amtY timeTaken).newAmountX = 0
          ∧ (onPointerUp true false true dirIsX amtX amtY timeTaken).newAmountY = 0) := by
  set out := onPointerUp true false true dirIsX amtX amtY timeTaken with hdefout
  set amt := if dirIsX then amtX else amtY with hdefamt
  have hout : out = (if swipeCommits amt timeTaken then
      { dismissCalls := 1, autoCloseCalls := 0, committed := true
        deleteStarted := true, swipeOutSet := true
        newAmountX := amtX, newAmountY := amtY }
    else
      { dismissCalls := 0, autoCloseCalls := 0, committed := false
        deleteStarted := false, swipeOutSet := false
        newAmountX := 0, newAmountY := 0 } : PointerUpOut) := by
    simp only [out, onPointerUp, Bool.not_true, Bool.or_false, Bool.or_self]
    rfl
  refine ⟨?_, ?_, ?_⟩
  · rw [hout]
    by_cases hc : swipeCommits amt timeTaken
    · rw [if_pos hc]
      simp only [true_iff]
      unfold swipeCommits at hc
      simpa using hc
    · rw [if_neg hc]
      simp only [Bool.false_eq_true, false_iff]
      unfold swipeCommits at hc
      simpa using hc
  · intro hc
    rw [hout] at hc ⊢
    by_cases h : swipeCommits amt timeTaken
    · rw [if_pos h]
      exact ⟨rfl, rfl, rfl, rfl⟩
    · rw [if_neg h] at hc
      exact Bool.noConfusion hc
  · intro hc
    rw [hout] at hc ⊢
    by_cases h : swipeCommits amt timeTaken
    · rw [if_pos h] at hc
      exact Bool.noConfusion hc
    · rw [if_neg h]
      exact ⟨rfl, rfl, rfl, rfl, rfl⟩

/-- Witness for C5 at the spec's concrete inputs: a 50 px drag (over 500 ms)
commits and invokes `onDismiss` exactly once; a 20 px drag released after
1000 ms (velocity 0.02 <= 0.11) snaps back, resets both amounts and invokes
neither callback. -/
theorem pointer_up_commit_iff_witness :
    (onPointerUp true false true true 50 0 500).committed = true
    ∧ (onPointerUp true false true true 50 0 500).dismissCalls = 1
    ∧ (onPointerUp true false true true 20 0 1000).committed = false
    ∧ (onPointerUp true false true true 20 0 1000).dismissCalls = 0
    ∧ (onPointerUp true false true true 20 0 1000).autoCloseCalls = 0
    ∧ (onPointerUp true false true true 20 0 1000).newAmountX = 0 := by
  have h1 := pointer_up_commit_iff true 50 0 500 (by norm_num)
  have h2 := pointer_up_commit_iff true 20 0 1000 (by norm_num)
  have hc1 : (onPointerUp true false true true 50 0 500).committed = true :=
    h1.1.mpr (Or.inl (by norm_num [jsAbs]))
  have hc2 : (onPointerUp true false true true 20 0 1000).committed = false := by
    by_cases h : (onPointerUp true false true true 20 0 1000).committed = true
    · have := h2.1.mp h
      rcases this with h45 | hv
      · exact absurd h45 (by norm_num [jsAbs])
      · exact absurd hv (by norm_num [jsAbs])
    · simpa using h
  have hd1 := h1.2.1 hc1
  have hd2 := h2.2.2 hc2
  exact ⟨hc1, hd1.1, hc2, hd2.1, hd2.2.1, hd2.2.2.2.1⟩

/-! Default swipe directions (src/src/index.tsx lines 47-60) and the
direction checks of `onPointerMove` (lines 343-367). -/

/-- JavaScript `String.prototype.split` with separator `"-"`, on the
character list: split at every dash, keeping empty pieces. -/
def splitDashChars : List Char → List (List Char)
  | [] => [[]]
  | c :: rest =>
      let groups := splitDashChars rest
      if c = '-' then [] :: groups
      else
        match groups with
        | [] => [[c]]
        | g :: gs => (c :: g) :: gs

/-- `position.split('-')` as a list of strings. -/
def jsSplitDash (s : String) : List String :=
  (splitDashChars s.toList).map String.mk

/-- `getDefaultSwipeDirections` (lines 47-60): destructure the split into
`[y, x]` and push each component that is truthy (present and non-empty);
note the horizontal component is pushed verbatim, so a center-anchored
position contributes the string `"center"`, which no direction check of
`onPointerMove` ever matches. -/
def getDefaultSwipeDirections (position : String) : List String :=
  let parts := jsSplitDash position
  let y := parts[0]?
  let x := parts[1]?
  (match y with
    | some s => if s = "" then [] else [s]
    | none => [])
  ++ (match x with
    | some s => if s = "" then [] else [s]
    | none => [])

/-- The horizontal branch of `onPointerMove` (lines 355-366): a full-strength
`xDelta` only when the movement's sign matches an allowed `left`/`right`
direction, the dampened value when `left`/`right` is allowed but the sign
opposes it, and zero displacement when neither `left` nor `right` is
allowed. -/
def swipeAmountXMove (dirs : List String) (xDelta : ℚ) : ℚ :=
  if dirs.contains "left" || dirs.contains "right" then
    if (dirs.contains "left" && decide (xDelta < 0))
        || (dirs.contains "right" && decide (xDelta > 0)) then
      xDelta
    else
      appliedSwipe xDelta
  else 0

/-- C8: for every position string the default allowed swipe directions are
its anchor components — the vertical anchor and, for left/right-anchored
positions, the horizontal anchor; for the center-anchored positions only the
vertical component is an allowed direction (the literal `"center"` element
matches no check), so a horizontal drag never produces any swipe
displacement, let alone a full-strength one. -/
theorem default_swipe_directions_from_anchors :
    getDefaultSwipeDirections "top-left" = ["top", "left"]
    ∧ getDefaultSwipeDirections "top-right" = ["top", "right"]
    ∧ getDefaultSwipeDirections "bottom-left" = ["bottom", "left"]
    ∧ getDefaultSwipeDirections "bottom-right" = ["bottom", "right"]
    ∧ getDefaultSwipeDirections "top-center" = ["top", "center"]
    ∧ getDefaultSwipeDirections "bottom-center" = ["bottom", "center"]
    ∧ (∀ xDelta : ℚ,
        swipeAmountXMove (getDefaultSwipeDirections "top-center") xDelta = 0)
    ∧ (∀ xDelta : ℚ,
        swipeAmountXMove (getDefaultSwipeDirections "bottom-center") xDelta = 0) := by
  refine ⟨?_, ?_, ?_, ?_, ?_, ?_, ?_, ?_⟩
  · rfl
  · rfl
  · rfl
  · rfl
  · rfl
  · rfl
  · intro xDelta; rfl
  · intro xDelta; rfl

/-! Dismissal paths and callback invocations.  One toast instance's handlers
(src/src/index.tsx): the timer callback (lines 191-194), the close button
(383-387), pointer down/up (274-317), the cancel and action buttons
(426-448) and the `toast.delete` effect (208-212), projected to the fields
that govern callback invocation.  None of the handlers consults the
`removed` flag, so events arriving during the 200 ms grace period after
removal began run their full bodies. -/

/-- Per-toast configuration the dismissal guards read. -/
structure MachineCfg where
  dismissible : Bool
  isLoading : Bool
  deriving DecidableEq, Repr

/-- Per-toast state: the `removed`/`swipeOut` signals, whether a drag has
started (`dragStartTime` is set and never cleared), and how often each
caller callback has been invoked. -/
structure MState where
  removed : Bool
  swipeOut : Bool
  dragActive : Bool
  dismissCount : Nat
  autoCloseCount : Nat
  deriving DecidableEq, Repr

/-- Events that can reach one toast instance's handlers. -/
inductive MEvent
  | timerFire
  | closeClick
  | pointerDown
  | pointerUp (dirIsX : Bool) (amtX amtY timeTaken : ℚ)
  | cancelClick
  | actionClick (defaultPrevented : Bool)
  | deleteFlag

/-- `deleteToast` projected to this state: mark the toast removed (the
offset capture and height filtering are layout-side, see `deleteToast`
above); it invokes no caller callback itself. -/
def deleteToastM (s : MState) : MState := { s with removed := true }

/-- One event step, each branch translated from the handler it names. -/
def mStep (cfg : MachineCfg) (s : MState) : MEvent → MState
  | MEvent.timerFire =>
      deleteToastM { s with autoCloseCount := s.autoCloseCount + 1 }
  | MEvent.closeClick =>
      if cfg.isLoading || !cfg.dismissible then s
      else { deleteToastM s with dismissCount := s.dismissCount + 1 }
  | MEvent.pointerDown =>
      if cfg.isLoading || !cfg.dismissible then s
      else { s with dragActive := true }
  | MEvent.pointerUp dirIsX amtX amtY timeTaken =>
      if s.swipeOut || !cfg.dismissible || !s.dragActive then s
      else
        let swipeAmount := if dirIsX then amtX else amtY
        if swipeCommits swipeAmount timeTaken then
          { deleteToastM { s with dismissCount := s.dismissCount + 1 } with
              swipeOut := true }
        else s
  | MEvent.cancelClick =>
      if !cfg.dismissible then s else deleteToastM s
  | MEvent.actionClick defaultPrevented =>
      if defaultPrevented then s else deleteToastM s
  | MEvent.deleteFlag => deleteToastM s

/-- Run a sequence of events against one toast instance. -/
def mRun (cfg : MachineCfg) (s : MState) (evs : List MEvent) : MState :=
  evs.foldl (mStep cfg) s

/-- State of a freshly mounted toast. -/
def mInit : MState :=
  { removed := false, swipeOut := false, dragActive := false
    dismissCount := 0, autoCloseCount := 0 }

/-- C9 counterexample: on a dismissible non-loading toast, timer expiry
followed by a close-button click during the grace period invokes both
`onAutoClose` and `onDismiss` for the same instance, and two close-button
clicks invoke `onDismiss` twice — the handlers (lines 284-317, 383-387)
never consult the `removed` flag set when removal began. -/
theorem timer_then_close_click_fires_both :
    (mRun ⟨true, false⟩ mInit [MEvent.timerFire, MEvent.closeClick]).autoCloseCount = 1
    ∧ (mRun ⟨true, false⟩ mInit [MEvent.timerFire, MEvent.closeClick]).dismissCount = 1
    ∧ (mRun ⟨true, false⟩ mInit [MEvent.closeClick, MEvent.closeClick]).dismissCount = 2 := by
  decide

/-- C9 amended: each single dismissal event invokes at most one of the two
callbacks — timer expiry increments only `onAutoClose`, and only the close
button or a committed pointer-up swipe increments `onDismiss` (cancel and
action buttons and the delete flag invoke neither) — and a committed swipe
sets the swipe-out flag, which blocks any further pointer-up dismissal of
the same instance; but invocations are not deduplicated across events, so
separate events during the grace period can add a second `onDismiss` or an
`onDismiss` after `onAutoClose`. -/
theorem dismissal_event_invokes_at_most_one_callback (cfg : MachineCfg)
    (s : MState) (e : MEvent) :
    ((mStep cfg s e).dismissCount = s.dismissCount
      ∨ (mStep cfg s e).dismissCount = s.dismissCount + 1)
    ∧ ((mStep cfg s e).autoCloseCount = s.autoCloseCount
      ∨ (mStep cfg s e).autoCloseCount = s.autoCloseCount + 1)
    ∧ ((mStep cfg s e).dismissCount = s.dismissCount
      ∨ (mStep cfg s e).autoCloseCount = s.autoCloseCount)
    ∧ ((mStep cfg s e).autoCloseCount ≠ s.autoCloseCount → e = MEvent.timerFire)
    ∧ ((mStep cfg s e).dismissCount ≠ s.dismissCount →
        e = MEvent.closeClick ∨ ∃ d ax ay t, e = MEvent.pointerUp d ax ay t)
    ∧ (s.swipeOut = true → ∀ d ax ay t, mStep cfg s (MEvent.pointerUp d ax ay t) = s) := by
  have hblock : s.swipeOut = true →
      ∀ d ax ay t, mStep cfg s (MEvent.pointerUp d ax ay t) = s := by
    intro hso d ax ay t
    simp [mStep, hso]
  cases e with
  | timerFire =>
      refine ⟨Or.inl rfl, Or.inr rfl, Or.inl rfl, fun _ => rfl, fun h => absurd rfl h,
        hblock⟩
  | closeClick =>
      by_cases hg : cfg.isLoading || !cfg.dismissible
      · refine ⟨?_, ?_, ?_, ?_, ?_, hblock⟩ <;> simp [mStep, hg]
      · refine ⟨?_, ?_, ?_, ?_, ?_, hblock⟩ <;> simp [mStep, hg, deleteToastM]
  | pointerDown =>
      by_cases hg : cfg.isLoading || !cfg.dismissible
      · refine ⟨?_, ?_, ?_, ?_, ?_, hblock⟩ <;> simp [mStep, hg]
      · refine ⟨?_, ?_, ?_, ?_, ?_, hblock⟩ <;> simp [mStep, hg]
  | pointerUp d ax ay t =>
      by_cases hg : s.swipeOut || !cfg.dismissible || !s.dragActive
      · refine ⟨?_, ?_, ?_, ?_, ?_, hblock⟩ <;> simp [mStep, hg]
      · by_cases hc : swipeCommits (if d then ax else ay) t
        · refine ⟨?_, ?_, ?_, ?_, ?_, hblock⟩
          · simp [mStep, hg, hc, deleteToastM]
          · simp [mStep, hg, hc, deleteToastM]
          · simp [mStep, hg, hc, deleteToastM]
          · simp [mStep, hg, hc, deleteToastM]
          · intro _
            exact Or.inr ⟨d, ax, ay, t, rfl⟩
        · refine ⟨?_, ?_, ?_, ?_, ?_, hblock⟩ <;> simp [mStep, hg, hc]
  | cancelClick =>
      by_cases hg : !cfg.dismissible
      · refine ⟨?_, ?_, ?_, ?_, ?_, hblock⟩ <;> simp [mStep, hg]
      · refine ⟨?_, ?_, ?_, ?_, ?_, hblock⟩ <;> simp [mStep, hg, deleteToastM]
  | actionClick dp =>
      by_cases hg : dp
      · refine ⟨?_, ?_, ?_, ?_, ?_, hblock⟩ <;> simp [mStep, hg]
      · refine ⟨?_, ?_, ?_, ?_, ?_, hblock⟩ <;> simp [mStep, hg, deleteToastM]
  | deleteFlag =>
      exact ⟨Or.inl rfl, Or.inl rfl, Or.inl rfl, fun h => absurd rfl h,
        fun h => absurd rfl h, hblock⟩

/-- Witness for the amended C9 at concrete inputs: a swiped-out instance
ignores a further committing pointer-up, and a timer expiry leaves the
`onDismiss` count unchanged. -/
theorem dismissal_event_invokes_at_most_one_callback_witness :
    mStep ⟨true, false⟩ ⟨true, true, true, 1, 0⟩ (MEvent.pointerUp true 50 0 100)
        = ⟨true, true, true, 1, 0⟩
    ∧ ((mStep ⟨true, false⟩ mInit MEvent.timerFire).dismissCount = mInit.dismissCount
      ∨ (mStep ⟨true, false⟩ mInit MEvent.timerFire).dismissCount
          = mInit.dismissCount + 1) :=
  ⟨(dismissal_event_invokes_at_most_one_callback ⟨true, false⟩ ⟨true, true, true, 1, 0⟩
      (MEvent.pointerUp true 50 0 100)).2.2.2.2.2 rfl true 50 0 100,
   (dismissal_event_invokes_at_most_one_callback ⟨true, false⟩ mInit
      MEvent.timerFire).1⟩

end SonnerSolid
